import Mathlib

/-!
Verification of the Field-Mapper reconciliation engine.

This file gives a shallow embedding of the reconciliation engine of the
Field-Mapper tool (`field_comparator.py`, `json_parser.py`, and the
aggregation loop of `field_mapper.py`) and proves/refutes the frozen claims
about it.

Modelling conventions:
* Python strings are Lean `String`s; character-level operations work on
  `String.data` (`List Char`).  `str.lower()` is modelled by the ASCII
  `Char.toLower` (the field names handled by the tool are ASCII).
* Python dicts are association lists `List (k × v)` in insertion order;
  lookup takes the *last* binding for a key (Python assignment overwrites).
* Python `None` becomes `Option`; truthiness is modelled explicitly where
  the source relies on it.
* JSON values are the inductive `Json` below.  Numbers are `Int`: no claim
  depends on numeric representation.
* The fuzzy similarity is CPython `difflib.SequenceMatcher.ratio` with
  `isjunk = None`.  `autojunk` only populates the junk set for second
  strings of length ≥ 200; normalized field names are far shorter, so the
  junk set is empty and is omitted from the embedding.
-/

namespace FMT

/-- Python dict lookup on an insertion-ordered association list: the last
binding for the key wins, mirroring repeated `d[k] = v` assignments. -/
def pyDictGet {α : Type} (l : List (String × α)) (k : String) : Option α :=
  (l.reverse.find? (fun kv => kv.1 = k)).map (fun kv => kv.2)

/-- Python `k in d` (dict key membership). -/
def pyDictContains {α : Type} (l : List (String × α)) (k : String) : Bool :=
  l.any (fun kv => kv.1 = k)

/-- Python `d[k] = v`: overwrite the value in place if the key exists,
otherwise append a new binding. -/
def pyDictSet {α : Type} (l : List (String × α)) (k : String) (v : α) :
    List (String × α) :=
  if l.any (fun kv => kv.1 = k) then
    l.map (fun kv => if kv.1 = k then (kv.1, v) else kv)
  else l ++ [(k, v)]

/-- Python substring test `sub in s` (contiguous substring, true for the
empty needle). -/
def pyIn (sub s : String) : Bool :=
  (List.range (s.data.length + 1)).any
    (fun i => decide (((s.data.drop i).take sub.data.length) = sub.data))

/-- Python truthiness of an optional string (`None` and `""` are falsy). -/
def pyTruthyStr (o : Option String) : Bool :=
  match o with
  | some s => s != ""
  | none => false

/-- ASCII `str.lower()`. -/
def pyLower (s : String) : String :=
  String.mk (s.data.map Char.toLower)

/-- JSON values as parsed by Python's `json` module. -/
inductive Json where
  | null : Json
  | bool (b : Bool) : Json
  | num (n : Int) : Json
  | str (s : String) : Json
  | arr (xs : List Json) : Json
  | obj (kvs : List (String × Json)) : Json
deriving Repr

/-- Python truthiness of a parsed JSON value (`if not data`). -/
def jsonTruthy : Json → Bool
  | Json.null => false
  | Json.bool b => b
  | Json.num n => n != 0
  | Json.str s => s != ""
  | Json.arr xs => !xs.isEmpty
  | Json.obj kvs => !kvs.isEmpty

/-! ## Normalizer (`FieldComparator._normalize_fields`) -/

/-- Separator characters stripped from field names. -/
def fieldSeps : List Char := [' ', '_', '-', '.']

/-- Separator characters stripped from category/array names (dots are not
treated specially there). -/
def catSeps : List Char := [' ', '_', '-']

/-- Python `s.split(sep)` for a one-character separator: split at every
occurrence, keeping empty segments (`"x.".split('.') == ['x','']`). -/
def splitOnChar (sep : Char) : List Char → List (List Char)
  | [] => [[]]
  | c :: rest =>
    if c = sep then [] :: splitOnChar sep rest
    else
      match splitOnChar sep rest with
      | [] => [[c]]
      | h :: t => (c :: h) :: t

/-- Character-level part of field normalization: strip separators, then
lower-case unless case-sensitive (the source lower-cases after stripping). -/
def normalizeFieldChars (caseSensitive : Bool) (l : List Char) : List Char :=
  if caseSensitive then l.filter (fun c => c ∉ fieldSeps)
  else (l.filter (fun c => c ∉ fieldSeps)).map Char.toLower

/-- `FieldComparator._normalize_fields` applied to one name: keep only the
final dot-segment when the name contains a dot, strip spaces, underscores,
hyphens and dots, and lower-case unless case-sensitive. -/
def normalizeField (caseSensitive : Bool) (f : String) : String :=
  String.mk (normalizeFieldChars caseSensitive
    (if '.' ∈ f.data then (splitOnChar ('.') f.data).getLastD f.data else f.data))

/-- `FieldComparator._normalize_fields` on a list of names. -/
def normalize_fields (caseSensitive : Bool) (fields : List String) : List String :=
  fields.map (normalizeField caseSensitive)

/-- The related normalization used for category and array names inside
`compare`: strip space/underscore/hyphen (no dot handling), lower-case
unless case-sensitive. -/
def normalizeCat (caseSensitive : Bool) (c : String) : String :=
  if caseSensitive then String.mk (c.data.filter (fun ch => ch ∉ catSeps))
  else String.mk ((c.data.filter (fun ch => ch ∉ catSeps)).map Char.toLower)

/-! Facts about `Char.toLower` needed for idempotence of normalization. -/

theorem charOfNat_toNat (n : Nat) (h : n < 55296) : (Char.ofNat n).toNat = n := by
  have hv : n.isValidChar := Or.inl h
  simp [Char.ofNat, hv, Char.ofNatAux, Char.toNat, UInt32.toNat, BitVec.toNat_ofNat]

theorem toLower_toNat (c : Char) :
    c.toLower.toNat = if c.toNat ≥ 65 ∧ c.toNat ≤ 90 then c.toNat + 32 else c.toNat := by
  simp only [Char.toLower]
  split
  · next h => exact charOfNat_toNat _ (by omega)
  · rfl

theorem toLower_fix (c : Char) (h : ¬(c.toNat ≥ 65 ∧ c.toNat ≤ 90)) :
    c.toLower = c := by
  simp only [Char.toLower]
  exact if_neg h

theorem toLower_toLower (c : Char) : c.toLower.toLower = c.toLower := by
  by_cases h : c.toNat ≥ 65 ∧ c.toNat ≤ 90
  · apply toLower_fix
    have := toLower_toNat c
    rw [if_pos h] at this
    omega
  · rw [toLower_fix c h, toLower_fix c h]

theorem toLower_mem_fieldSeps (c : Char) (h : c.toLower ∈ fieldSeps) :
    c ∈ fieldSeps := by
  by_cases hc : c.toNat ≥ 65 ∧ c.toNat ≤ 90
  · exfalso
    have ht := toLower_toNat c
    rw [if_pos hc] at ht
    simp only [fieldSeps, List.mem_cons, List.not_mem_nil, or_false] at h
    have h32 : (' ' : Char).toNat = 32 := by decide
    have h95 : ('_' : Char).toNat = 95 := by decide
    have h45 : ('-' : Char).toNat = 45 := by decide
    have h46 : ('.' : Char).toNat = 46 := by decide
    rcases h with h | h | h | h <;> rw [h] at ht <;> omega
  · rwa [toLower_fix c hc] at h

theorem normalizeFieldChars_no_seps (cs : Bool) (l : List Char) :
    ∀ c ∈ normalizeFieldChars cs l, c ∉ fieldSeps := by
  intro c hc
  unfold normalizeFieldChars at hc
  by_cases hcase : cs
  · rw [if_pos hcase] at hc
    have := List.of_mem_filter hc
    simpa using this
  · rw [if_neg hcase] at hc
    rcases List.mem_map.mp hc with ⟨c0, hc0, rfl⟩
    have hc0' : c0 ∉ fieldSeps := by simpa using List.of_mem_filter hc0
    intro habs
    exact hc0' (toLower_mem_fieldSeps c0 habs)

theorem map_toLower_idem (m : List Char) :
    (m.map Char.toLower).map Char.toLower = m.map Char.toLower := by
  induction m with
  | nil => rfl
  | cons c t ih => simp only [List.map_cons, toLower_toLower, ih]

/-- Normalization fixes any character list that is already free of
separators and (when case-insensitive) already lower-cased. -/
theorem normalizeFieldChars_fix (cs : Bool) (m : List Char)
    (h1 : ∀ c ∈ m, c ∉ fieldSeps)
    (h2 : cs = false → m.map Char.toLower = m) :
    normalizeFieldChars cs m = m := by
  have hf : m.filter (fun c => c ∉ fieldSeps) = m :=
    List.filter_eq_self.mpr (fun c hc => by simpa using h1 c hc)
  cases cs
  · show (m.filter (fun c => c ∉ fieldSeps)).map Char.toLower = m
    rw [hf, h2 rfl]
  · exact hf

theorem normalizeFieldChars_lower_fix (l : List Char) :
    (normalizeFieldChars false l).map Char.toLower = normalizeFieldChars false l := by
  show ((l.filter (fun c => c ∉ fieldSeps)).map Char.toLower).map Char.toLower = _
  exact map_toLower_idem _

theorem normalizeFieldChars_idem (cs : Bool) (l : List Char) :
    normalizeFieldChars cs (normalizeFieldChars cs l) = normalizeFieldChars cs l := by
  apply normalizeFieldChars_fix cs _ (normalizeFieldChars_no_seps cs l)
  intro hcs
  subst hcs
  exact normalizeFieldChars_lower_fix l

/-- Claim C4: normalization is idempotent for either case-sensitivity
setting, dot-segment extraction included: a normalized name contains no
dots, so the dot-segment branch is not re-entered. -/
theorem C4_normalizeField_idem (cs : Bool) (f : String) :
    normalizeField cs (normalizeField cs f) = normalizeField cs f := by
  have hnodot : '.' ∉ (normalizeField cs f).data := by
    intro h
    exact normalizeFieldChars_no_seps cs _ _ h (by simp [fieldSeps])
  show String.mk (normalizeFieldChars cs
      (if '.' ∈ (normalizeField cs f).data
        then (splitOnChar ('.') (normalizeField cs f).data).getLastD
          (normalizeField cs f).data
        else (normalizeField cs f).data)) = normalizeField cs f
  rw [if_neg hnodot]
  show String.mk (normalizeFieldChars cs (normalizeFieldChars cs
      (if '.' ∈ f.data then (splitOnChar ('.') f.data).getLastD f.data
        else f.data))) = _
  rw [normalizeFieldChars_idem]
  rfl

/-! ## Fuzzy similarity (CPython `difflib.SequenceMatcher`, no junk)

`_calculate_similarity` calls `SequenceMatcher(None, str1, str2).ratio()`.
With `isjunk = None` and second strings shorter than 200 characters the
junk sets are empty, so the embedding below drops every junk test of the
CPython source and keeps the rest verbatim. -/

/-- One row of `find_longest_match`: process position `i` of `a` holding
character `c`.  `old` is the table `j2len` of the previous row (defaulting
to 0), the result is the new table together with the updated best block
`(besti, bestj, bestsize)`. -/
def flmRow (b : List Char) (blo bhi : Nat) (c : Char) (i : Nat)
    (old : Nat → Nat) (best : Nat × Nat × Nat) :
    (Nat → Nat) × (Nat × Nat × Nat) :=
  (List.range' blo (bhi - blo)).foldl
    (fun st j =>
      if b.get? j = some c then
        let k := if j = 0 then 1 else old (j - 1) + 1
        ((fun j2 => if j2 = j then k else st.1 j2),
         if k > st.2.2.2 then (i + 1 - k, j + 1 - k, k) else st.2)
      else st)
    ((fun _ => 0), best)

/-- The dynamic-programming core of `find_longest_match` over
`a[alo:ahi]` and `b[blo:bhi]`. -/
def flmCore (a b : List Char) (alo ahi blo bhi : Nat) : Nat × Nat × Nat :=
  ((List.range' alo (ahi - alo)).foldl
    (fun (st : (Nat → Nat) × (Nat × Nat × Nat)) i =>
      match a.get? i with
      | some c => flmRow b blo bhi c i st.1 st.2
      | none => ((fun _ => 0), st.2))
    ((fun _ => 0), (alo, blo, 0))).2

/-- The left-extension loop of `find_longest_match` (with an empty junk
set this is the only left extension; fuel bounds the walk). -/
def flmExtendLeft (a b : List Char) (alo blo : Nat) :
    Nat → Nat × Nat × Nat → Nat × Nat × Nat
  | 0, best => best
  | fuel + 1, (bi, bj, bs) =>
    if bi > alo ∧ bj > blo ∧ (a.get? (bi - 1)).isSome
        ∧ a.get? (bi - 1) = b.get? (bj - 1) then
      flmExtendLeft a b alo blo fuel (bi - 1, bj - 1, bs + 1)
    else (bi, bj, bs)

/-- The right-extension loop of `find_longest_match`. -/
def flmExtendRight (a b : List Char) (ahi bhi : Nat) :
    Nat → Nat × Nat × Nat → Nat × Nat × Nat
  | 0, best => best
  | fuel + 1, (bi, bj, bs) =>
    if bi + bs < ahi ∧ bj + bs < bhi ∧ (a.get? (bi + bs)).isSome
        ∧ a.get? (bi + bs) = b.get? (bj + bs) then
      flmExtendRight a b ahi bhi fuel (bi, bj, bs + 1)
    else (bi, bj, bs)

/-- `SequenceMatcher.find_longest_match` on `a[alo:ahi]` × `b[blo:bhi]`. -/
def find_longest_match (a b : List Char) (alo ahi blo bhi : Nat) :
    Nat × Nat × Nat :=
  flmExtendRight a b ahi bhi ahi
    (flmExtendLeft a b alo blo (flmCore a b alo ahi blo bhi).1
      (flmCore a b alo ahi blo bhi))

/-- Total size of all matching blocks (`get_matching_blocks` recursion);
`fuel` dominates the interval sizes, which shrink at each recursive call. -/
def matchingBlocksTotal (a b : List Char) :
    Nat → Nat → Nat → Nat → Nat → Nat
  | 0, _, _, _, _ => 0
  | fuel + 1, alo, ahi, blo, bhi =>
    match find_longest_match a b alo ahi blo bhi with
    | (i, j, k) =>
      if k = 0 then 0
      else k + matchingBlocksTotal a b fuel alo i blo j
             + matchingBlocksTotal a b fuel (i + k) ahi (j + k) bhi

/-- `SequenceMatcher.ratio()`: `2*M/T` as a rational (built with `mkRat`,
which equals `2*M/T` since `T ≠ 0` in that branch), and 1.0 when both
strings are empty (`_calculate_ratio`). -/
def ratioOf (a b : List Char) : ℚ :=
  if a.length + b.length = 0 then 1
  else mkRat (2 * (matchingBlocksTotal a b (a.length + b.length + 1)
      0 a.length 0 b.length)) (a.length + b.length)

/-- `FieldComparator._calculate_similarity`. -/
def calculate_similarity (s1 s2 : String) : ℚ :=
  ratioOf s1.data s2.data

/-- One step of `_find_best_fuzzy_match`: keep the strictly better
candidate (so the first candidate wins ties), starting from
`best_match = None, best_similarity = 0.0`. -/
def fbfmStep (field : String) (best : Option (String × ℚ)) (c : String) :
    Option (String × ℚ) :=
  match best with
  | none => if calculate_similarity field c > 0
            then some (c, calculate_similarity field c) else none
  | some (_, bs) => if calculate_similarity field c > bs
            then some (c, calculate_similarity field c) else best

/-- `FieldComparator._find_best_fuzzy_match`: linear scan keeping the
strictly best candidate; `None` when no candidate beats similarity 0. -/
def find_best_fuzzy_match (field : String) (candidates : List String) :
    Option (String × ℚ) :=
  candidates.foldl (fbfmStep field) none

/-! ## Match engine (`FieldComparator._find_matches` and `compare`) -/

/-- Match kind.  In the source `match_type` is a string: `'exact'`,
`'fuzzy (x.xx)'` (the score formatted to two decimals), `'not_found'`, and
the value `'category_null'` tested for by the aggregation code.  The
constructors carry the exact score instead of its two-decimal rendering. -/
inductive MatchType where
  | exact : MatchType
  | fuzzy (score : ℚ) : MatchType
  | not_found : MatchType
  | category_null : MatchType
deriving DecidableEq, Repr

/-- One step of the first (exact) pass of `_find_matches`: accumulator is
`(matches, used_json_fields)`. -/
def exactStep (json_fields : List String)
    (acc : List (String × String × MatchType) × List String) (db : String) :
    List (String × String × MatchType) × List String :=
  if db ∈ json_fields ∧ db ∉ acc.2 then
    (acc.1 ++ [(db, db, MatchType.exact)], acc.2 ++ [db])
  else acc

/-- One step of the second (fuzzy) pass of `_find_matches`. -/
def fuzzyStep (threshold : ℚ) (json_fields : List String)
    (acc : List (String × String × MatchType) × List String) (db : String) :
    List (String × String × MatchType) × List String :=
  if db ∈ acc.1.map (fun m => m.1) then acc
  else
    match find_best_fuzzy_match db (json_fields.filter (fun f => f ∉ acc.2)) with
    | some (jf, s) =>
      if s ≥ threshold then
        (acc.1 ++ [(db, jf, MatchType.fuzzy s)], acc.2 ++ [jf])
      else acc
    | none => acc

/-- `FieldComparator._find_matches` over normalized field lists. -/
def find_matches (fuzzyEnabled : Bool) (threshold : ℚ)
    (db_fields json_fields : List String) :
    List (String × String × MatchType) :=
  if fuzzyEnabled then
    (db_fields.foldl (fuzzyStep threshold json_fields)
      (db_fields.foldl (exactStep json_fields) ([], []))).1
  else (db_fields.foldl (exactStep json_fields) ([], [])).1

/-- Comparator configuration (constructor arguments of `FieldComparator`). -/
structure CompareConfig where
  case_sensitive : Bool
  fuzzy_match : Bool
  similarity_threshold : ℚ
deriving Repr

/-- One comparison result row (`results.append({...})` in `compare`).
`category` is only populated for `unmatched_db` rows. -/
structure ResultRecord where
  field_name : String
  db_field : String
  json_field : String
  status : String
  match_type : MatchType
  table_name : String
  json_file : String
  category : String
deriving DecidableEq, Repr

/-- `array_is_null` for a normalized db field: the mapped array name must
be truthy (non-empty) and flagged null. -/
def arrayIsNull (arrMapN : List (String × String))
    (nullMapN : List (String × Bool)) (db : String) : Bool :=
  match pyDictGet arrMapN db with
  | some a => if a != "" then (pyDictGet nullMapN a).getD false else false
  | none => false

/-- `category_is_null` for a normalized db field: only checked when the
category is truthy and no truthy array name claims the field. -/
def categoryIsNull (cfg : CompareConfig) (catMapN : List (String × String))
    (arrMapN : List (String × String)) (nullMapN : List (String × Bool))
    (db : String) : Bool :=
  match pyDictGet catMapN db with
  | some cat =>
    if cat != "" ∧ ¬ (pyTruthyStr (pyDictGet arrMapN db) = true) then
      (pyDictGet nullMapN (normalizeCat cfg.case_sensitive cat)).getD false
    else false
  | none => false

/-- The suppression flag shared by the matched and unmatched-db passes. -/
def nullFlag (cfg : CompareConfig) (catMapN arrMapN : List (String × String))
    (nullMapN : List (String × Bool)) (db : String) : Bool :=
  arrayIsNull arrMapN nullMapN db || categoryIsNull cfg catMapN arrMapN nullMapN db

/-- Normalized field→category mapping built at the top of `compare`. -/
def normCatMap (cfg : CompareConfig) (m : List (String × String)) :
    List (String × String) :=
  m.map (fun kv => (normalizeField cfg.case_sensitive kv.1, kv.2))

/-- Normalized null-category map built at the top of `compare`. -/
def normNullMap (cfg : CompareConfig) (m : List (String × Bool)) :
    List (String × Bool) :=
  m.map (fun kv => (normalizeCat cfg.case_sensitive kv.1, kv.2))

/-- Normalized array-field mapping built at the top of `compare`. -/
def normArrMap (cfg : CompareConfig) (m : List (String × String)) :
    List (String × String) :=
  m.map (fun kv =>
    (normalizeField cfg.case_sensitive kv.1, normalizeCat cfg.case_sensitive kv.2))

/-- Original spelling of a normalized field, from the zip of normalized and
original lists (`{norm: orig}`, last binding wins like the dict build). -/
def origOf (pairs : List (String × String)) (n : String) : String :=
  (pyDictGet pairs n).getD n

/-- The `unmatched_db` row built for a normalized db field (the `category`
column is `category if category else ''`). -/
def mkUnmatchedDbRecord (dbOrig : List (String × String))
    (catMapN : List (String × String)) (table_name json_file : String)
    (db : String) : ResultRecord :=
  { field_name := origOf dbOrig db
    db_field := origOf dbOrig db
    json_field := ""
    status := "unmatched_db"
    match_type := MatchType.not_found
    table_name := table_name
    json_file := json_file
    category := (pyDictGet catMapN db).getD "" }

/-- The `matched` row built for a matched pair. -/
def mkMatchedRecord (dbOrig jsOrig : List (String × String))
    (table_name json_file : String) (p : String × String × MatchType) :
    ResultRecord :=
  { field_name := origOf dbOrig p.1
    db_field := origOf dbOrig p.1
    json_field := origOf jsOrig p.2.1
    status := "matched"
    match_type := p.2.2
    table_name := table_name
    json_file := json_file
    category := "" }

/-- The `unmatched_json` row built for an unclaimed json field. -/
def mkUnmatchedJsonRecord (jsOrig : List (String × String))
    (table_name json_file : String) (jf : String) : ResultRecord :=
  { field_name := origOf jsOrig jf
    db_field := ""
    json_field := origOf jsOrig jf
    status := "unmatched_json"
    match_type := MatchType.not_found
    table_name := table_name
    json_file := json_file
    category := "" }

/-- First loop of `compare`: matched pairs whose array/category null flag
is set are skipped entirely. -/
def matchedPass (cfg : CompareConfig) (catMapN arrMapN : List (String × String))
    (nullMapN : List (String × Bool)) (dbOrig jsOrig : List (String × String))
    (table_name json_file : String)
    (pairs : List (String × String × MatchType)) : List ResultRecord :=
  pairs.filterMap (fun p =>
    if nullFlag cfg catMapN arrMapN nullMapN p.1 then none
    else some (mkMatchedRecord dbOrig jsOrig table_name json_file p))

/-- Second loop of `compare`: unmatched db fields; a field with a set null
flag is skipped only when it is not a key of the normalized
field→category mapping. -/
def unmatchedDbPass (cfg : CompareConfig)
    (catMapN arrMapN : List (String × String)) (nullMapN : List (String × Bool))
    (dbOrig : List (String × String)) (table_name json_file : String)
    (matchedDb : List String) (dbN : List String) : List ResultRecord :=
  dbN.filterMap (fun db =>
    if db ∈ matchedDb then none
    else if nullFlag cfg catMapN arrMapN nullMapN db
        ∧ ¬ (pyDictContains catMapN db = true) then none
    else some (mkUnmatchedDbRecord dbOrig catMapN table_name json_file db))

/-- Third loop of `compare`: unclaimed json fields. -/
def unmatchedJsonPass (jsOrig : List (String × String))
    (table_name json_file : String) (matchedJson : List String)
    (jsN : List String) : List ResultRecord :=
  jsN.filterMap (fun jf =>
    if jf ∈ matchedJson then none
    else some (mkUnmatchedJsonRecord jsOrig table_name json_file jf))

/-- `FieldComparator.compare`.  The three appending loops of the source
become three `filterMap` passes concatenated in the same order.  The
`json_data`-driven value-validation side pass does not touch the returned
list and is modelled separately (`extract_field_values` and friends). -/
def compare (cfg : CompareConfig) (db_fields json_fields : List String)
    (table_name json_file : String)
    (field_category_mapping : List (String × String))
    (null_categories : List (String × Bool))
    (array_field_mapping : List (String × String)) : List ResultRecord :=
  matchedPass cfg (normCatMap cfg field_category_mapping)
    (normArrMap cfg array_field_mapping) (normNullMap cfg null_categories)
    ((normalize_fields cfg.case_sensitive db_fields).zip db_fields)
    ((normalize_fields cfg.case_sensitive json_fields).zip json_fields)
    table_name json_file
    (find_matches cfg.fuzzy_match cfg.similarity_threshold
      (normalize_fields cfg.case_sensitive db_fields)
      (normalize_fields cfg.case_sensitive json_fields))
  ++ unmatchedDbPass cfg (normCatMap cfg field_category_mapping)
    (normArrMap cfg array_field_mapping) (normNullMap cfg null_categories)
    ((normalize_fields cfg.case_sensitive db_fields).zip db_fields)
    table_name json_file
    ((find_matches cfg.fuzzy_match cfg.similarity_threshold
      (normalize_fields cfg.case_sensitive db_fields)
      (normalize_fields cfg.case_sensitive json_fields)).map (fun p => p.1))
    (normalize_fields cfg.case_sensitive db_fields)
  ++ unmatchedJsonPass
    ((normalize_fields cfg.case_sensitive json_fields).zip json_fields)
    table_name json_file
    ((find_matches cfg.fuzzy_match cfg.similarity_threshold
      (normalize_fields cfg.case_sensitive db_fields)
      (normalize_fields cfg.case_sensitive json_fields)).map (fun p => p.2.1))
    (normalize_fields cfg.case_sensitive json_fields)

/-- Aggregate counters of `FieldComparator.get_statistics`. -/
structure CompareStats where
  total : Nat
  matched : Nat
  unmatched_db : Nat
  unmatched_json : Nat
  exact_matches : Nat
  fuzzy_matches : Nat
deriving DecidableEq, Repr

/-- Models `'exact' in match_type.lower()` on the strings the comparator
produces (`'exact'`, `'fuzzy (x.xx)'`, `'not_found'`, `'category_null'`):
only the first contains `'exact'`. -/
def mtHasExact : MatchType → Bool
  | MatchType.exact => true
  | _ => false

/-- Models `'fuzzy' in match_type.lower()` on the same strings. -/
def mtHasFuzzy : MatchType → Bool
  | MatchType.fuzzy _ => true
  | _ => false

/-- One accumulation step of `get_statistics`. -/
def statStep (st : CompareStats) (r : ResultRecord) : CompareStats :=
  if r.status = "matched" then
    if mtHasExact r.match_type then
      { st with matched := st.matched + 1, exact_matches := st.exact_matches + 1 }
    else if mtHasFuzzy r.match_type then
      { st with matched := st.matched + 1, fuzzy_matches := st.fuzzy_matches + 1 }
    else { st with matched := st.matched + 1 }
  else if r.status = "unmatched_db" then
    { st with unmatched_db := st.unmatched_db + 1 }
  else if r.status = "unmatched_json" then
    { st with unmatched_json := st.unmatched_json + 1 }
  else st

/-- `FieldComparator.get_statistics`. -/
def get_statistics (results : List ResultRecord) : CompareStats :=
  results.foldl statStep
    { total := results.length, matched := 0, unmatched_db := 0,
      unmatched_json := 0, exact_matches := 0, fuzzy_matches := 0 }

/-! ## JSON parser (`json_parser.py`) -/

/-- Value test of `check_null_categories`: `value is None` or an empty
list. -/
def isNullOrEmptyArray : Json → Bool
  | Json.null => true
  | Json.arr [] => true
  | _ => false

/-- `JSONParser.check_null_categories` on parsed data with no `json_path`
(the claims concern the plain top-level computation).  A falsy document
(parse failure modelled as `null`, or an empty/zero root) yields `{}`;
an object root maps each top-level key; an array root uses the first
record only, and only when that record is an object. -/
def check_null_categories (data : Json) : List (String × Bool) :=
  if jsonTruthy data then
    match data with
    | Json.obj kvs => kvs.map (fun kv => (kv.1, isNullOrEmptyArray kv.2))
    | Json.arr (Json.obj kvs :: _) => kvs.map (fun kv => (kv.1, isNullOrEmptyArray kv.2))
    | _ => []
  else []

/-- Python regex `\s` over ASCII. -/
def pyWhitespace : List Char := [' ', '\t', '\n', '\x0b', '\x0c', '\r']

/-- Splits a leading run of whitespace. -/
def wsSplit : List Char → List Char × List Char
  | [] => ([], [])
  | c :: rest =>
    if c ∈ pyWhitespace then ((c :: (wsSplit rest).1), (wsSplit rest).2)
    else ([], c :: rest)

/-- Fuel-indexed scan implementing `re.sub(r',(\s*[}\]])', r'\1', s)`:
a comma followed by whitespace and a closing bracket is dropped, scanning
resumes after the bracket (matches do not overlap).  One fuel unit is
spent per step and every step consumes at least one character, so fuel
equal to the length suffices. -/
def rtcFuel : Nat → List Char → List Char
  | 0, l => l
  | _ + 1, [] => []
  | fuel + 1, c :: rest =>
    if c = ',' then
      match wsSplit rest with
      | (ws, b :: tail) =>
        if b = '}' ∨ b = ']' then ws ++ b :: rtcFuel fuel tail
        else c :: rtcFuel fuel rest
      | (_, []) => c :: rtcFuel fuel rest
    else c :: rtcFuel fuel rest

/-- Trailing-comma repair attempted by `load_json`. -/
def removeTrailingCommas (s : String) : String :=
  String.mk (rtcFuel s.data.length s.data)

/-- The byte-order-mark strip (`content = content[1:]` when the content
starts with U+FEFF). -/
def bomStripped (content : String) : String :=
  if content.startsWith ("﻿") then content.drop 1 else content

/-- `JSONParser.load_json` on decoded content.  JSON text parsing itself
is the Python `json` standard library, external to this repository, so it
is a parameter `parse`; `load_json` performs the bounded recovery around
it: plain parse, then parse after stripping a leading byte-order mark,
then parse after removing trailing commas (only when that changed the
text), and `none` (never an exception) when everything fails. -/
def load_json (parse : String → Option Json) (content : String) : Option Json :=
  match parse content with
  | some d => some d
  | none =>
    match (if content.startsWith ("﻿") then parse (bomStripped content) else none) with
    | some d => some d
    | none =>
      if removeTrailingCommas (bomStripped content) ≠ bomStripped content then
        parse (removeTrailingCommas (bomStripped content))
      else none

/-! ## Field-value extraction (`_get_value_by_path`, `_extract_field_values`) -/

/-- Loop body of `FieldComparator._get_value_by_path`: one key per step;
a dict is looked up (a missing key and an explicit JSON null are the same
`None` in Python), an array is traversed through its first element only
and only when that element is a dict. -/
def get_value_go : List String → Json → Option Json
  | [], cur => some cur
  | k :: ks, cur =>
    match cur with
    | Json.obj kvs =>
      match pyDictGet kvs k with
      | some Json.null => none
      | some v => get_value_go ks v
      | none => none
    | Json.arr (Json.obj kvs :: _) =>
      match pyDictGet kvs k with
      | some Json.null => none
      | some v => get_value_go ks v
      | none => none
    | _ => none

/-- `FieldComparator._get_value_by_path`. -/
def get_value_by_path (obj : Json) (field_path : String) : Option Json :=
  get_value_go ((splitOnChar ('.') field_path.data).map String.mk) obj

/-- Inner loop of `_extract_field_values` for a root-level array: store the
value for a path only if no value was stored for that path yet. -/
def efvPathsStep (record : Json) (acc : List (String × Json)) (p : String) :
    List (String × Json) :=
  match get_value_by_path record p with
  | some v => if pyDictContains acc p then acc else acc ++ [(p, v)]
  | none => acc

/-- Outer loop of `_extract_field_values` for a root-level array: only
dict records are visited. -/
def efvRecordStep (field_paths : List String) (acc : List (String × Json))
    (record : Json) : List (String × Json) :=
  match record with
  | Json.obj _ => field_paths.foldl (efvPathsStep record) acc
  | _ => acc

/-- `FieldComparator._extract_field_values`. -/
def extract_field_values (data : Json) (field_paths : List String) :
    List (String × Json) :=
  match data with
  | Json.arr records => records.foldl (efvRecordStep field_paths) []
  | Json.obj _ =>
    field_paths.foldl
      (fun acc p =>
        match get_value_by_path data p with
        | some v => pyDictSet acc p v
        | none => acc) []
  | _ => []

/-- The value a dict record contributes for a path (non-dict records are
skipped by `_extract_field_values`). -/
def recordValue (p : String) (r : Json) : Option Json :=
  match r with
  | Json.obj _ => get_value_by_path r p
  | _ => none

/-! ## Special-character exclusion (`_is_excluded_field_with_database`) -/

/-- The normalization used inside `_is_excluded_field_with_database`:
`field_name.lower().replace(' ','').replace('_','').replace('-','')
.replace('.','').replace(':','')`.  The source computes this twice (as
`normalized` and `field_normalized`); both are this function. -/
def exclNormalize (s : String) : String :=
  String.mk ((s.data.map Char.toLower).filter
    (fun c => c ∉ ([' ', '_', '-', '.', ':'] : List Char)))

/-- `self.default_excluded_from_validation` (a Python set; only `any`
over it is observed, so the iteration order is irrelevant). -/
def default_excluded_from_validation : List String :=
  [("helm"), ("helms"), ("helmnotation"), ("helm_notation"),
   ("molstructure"), ("molstructure_smiles"), ("molstructuresmiles"),
   ("smiles"), ("smile"), ("smiles_notation"), ("smilesnotation"),
   ("fragment_similarity"), ("fragmentsimilarity"),
   ("fragment_similarity_smiles"), ("fragmentsimilaritysmiles"),
   ("pbm_smiles"), ("ubm_smiles"), ("pd_smiles"), ("photolabile_smiles"),
   ("modification_in_smiles"), ("modificationinsmiles"),
   ("parameters"), ("parameter")]

/-- The database-specific keyword list used by the validator: present only
when the database name is truthy and a key of the keyword dict. -/
def dbExcludedKeywords (dbKeywords : List (String × List String))
    (database_name : String) : List String :=
  if database_name ≠ "" ∧ pyDictContains dbKeywords database_name then
    (pyDictGet dbKeywords database_name).getD []
  else []

/-- `FieldComparator._is_excluded_field_with_database`.  The built-in set
is tested in both substring directions; caller-supplied keywords only in
the keyword-in-field direction; the final hard-coded
molstructure/helm/smiles/smile tests repeat members of the built-in set
on the same normalized name. -/
def is_excluded_field_with_database (dbKeywords : List (String × List String))
    (field_name database_name : String) : Bool :=
  if default_excluded_from_validation.any (fun e =>
      pyIn e (exclNormalize field_name) || pyIn (exclNormalize field_name) e) then
    true
  else if (dbExcludedKeywords dbKeywords database_name).any (fun kw =>
      pyIn (exclNormalize kw) (exclNormalize field_name)) then
    true
  else if pyIn ("molstructure") (exclNormalize field_name) then true
  else if pyIn ("helm") (exclNormalize field_name) then true
  else if pyIn ("smiles") (exclNormalize field_name)
       || pyIn ("smile") (exclNormalize field_name) then true
  else false

/-! ## Streaming aggregation (`FieldMapperApp._process_comparison_batch`) -/

/-- The per-field running counters of the incremental aggregation
(`defaultdict(lambda: {'matched': 0, 'unmatched_db': 0,
'unmatched_json': 0, 'category_null': 0})`). -/
structure FieldStat where
  matched : Nat
  unmatched_db : Nat
  unmatched_json : Nat
  category_null : Nat
deriving DecidableEq, Repr

def initFieldStat : FieldStat := ⟨0, 0, 0, 0⟩

def addFieldStat (s t : FieldStat) : FieldStat :=
  ⟨s.matched + t.matched, s.unmatched_db + t.unmatched_db,
   s.unmatched_json + t.unmatched_json, s.category_null + t.category_null⟩

/-- One result row folded into the counters (the `# Aggregate results
immediately` loop): `unmatched_db` rows are only counted when their match
type is not `category_null`. -/
def aggregateRecord (stats : String → FieldStat) (r : ResultRecord) :
    String → FieldStat := fun name =>
  if name = r.field_name then
    if r.status = "matched" then
      { stats name with matched := (stats name).matched + 1 }
    else if r.status = "unmatched_db" then
      if r.match_type ≠ MatchType.category_null then
        { stats name with unmatched_db := (stats name).unmatched_db + 1 }
      else stats name
    else if r.status = "unmatched_json" then
      { stats name with unmatched_json := (stats name).unmatched_json + 1 }
    else stats name
  else stats name

/-- All rows of one file folded into the counters. -/
def aggregate_results (stats : String → FieldStat) (rs : List ResultRecord) :
    String → FieldStat :=
  rs.foldl aggregateRecord stats

/-- The aggregation state threaded through the batch loop. -/
structure BatchState where
  field_stats : String → FieldStat
  success : Nat
  failed : Nat
  processed : Nat

def initBatchState : BatchState := ⟨fun _ => initFieldStat, 0, 0, 0⟩

/-- Handling of one file of the batch loop: a failed load (`json_data is
None`, or the surrounding `except` arm) bumps the failure counter and
contributes nothing; a successful load folds the file's comparison rows
into the running counters.  Per-file comparison results are data here:
the comparator computes them per file, independent of batch order. -/
def processFile (st : BatchState) (file : Option (List ResultRecord)) :
    BatchState :=
  match file with
  | none => { st with failed := st.failed + 1, processed := st.processed + 1 }
  | some results =>
    { st with field_stats := aggregate_results st.field_stats results,
              success := st.success + 1, processed := st.processed + 1 }

/-- The batch loop of `_process_comparison_batch` (aggregation path for
large batches). -/
def processBatch (st : BatchState) (files : List (Option (List ResultRecord))) :
    BatchState :=
  files.foldl processFile st

/-! ## Invariants of the matching passes -/

/-- Invariant of the `_find_best_fuzzy_match` scan over the candidates
already seen. -/
def fbfmInv (field : String) (seen : List String) :
    Option (String × ℚ) → Prop
  | none => ∀ c ∈ seen, calculate_similarity field c ≤ 0
  | some (j, s) => j ∈ seen ∧ s = calculate_similarity field j ∧ 0 < s ∧
      ∀ c ∈ seen, calculate_similarity field c ≤ s

theorem fbfmStep_inv (field : String) (seen : List String)
    (acc : Option (String × ℚ)) (c : String) (h : fbfmInv field seen acc) :
    fbfmInv field (seen ++ [c]) (fbfmStep field acc c) := by
  cases acc with
  | none =>
    simp only [fbfmInv] at h
    simp only [fbfmStep]
    split
    · next hpos =>
      refine ⟨by simp, rfl, hpos, ?_⟩
      intro x hx
      rcases List.mem_append.mp hx with hx | hx
      · exact le_of_lt (lt_of_le_of_lt (h x hx) hpos)
      · simp only [List.mem_singleton] at hx
        subst hx
        exact le_refl _
    · next hneg =>
      simp only [fbfmInv]
      intro x hx
      rcases List.mem_append.mp hx with hx | hx
      · exact h x hx
      · simp only [List.mem_singleton] at hx
        subst hx
        exact not_lt.mp hneg
  | some pr =>
    obtain ⟨j, s⟩ := pr
    obtain ⟨hj, hs, hpos, hall⟩ := h
    simp only [fbfmStep]
    split
    · next hgt =>
      refine ⟨by simp, rfl, lt_trans hpos hgt, ?_⟩
      intro x hx
      rcases List.mem_append.mp hx with hx | hx
      · exact le_of_lt (lt_of_le_of_lt (hall x hx) hgt)
      · simp only [List.mem_singleton] at hx
        subst hx
        exact le_refl _
    · next hle =>
      refine ⟨List.mem_append_left _ hj, hs, hpos, ?_⟩
      intro x hx
      rcases List.mem_append.mp hx with hx | hx
      · exact hall x hx
      · simp only [List.mem_singleton] at hx
        subst hx
        exact not_lt.mp hle

theorem fbfm_fold (field : String) (cs : List String) :
    ∀ (seen : List String) (acc : Option (String × ℚ)),
      fbfmInv field seen acc →
      fbfmInv field (seen ++ cs) (cs.foldl (fbfmStep field) acc) := by
  induction cs with
  | nil => intro seen acc h; simpa using h
  | cons c t ih =>
    intro seen acc h
    have hstep := fbfmStep_inv field seen acc c h
    have := ih (seen ++ [c]) _ hstep
    simpa [List.append_assoc] using this

/-- The scan returns a member of the candidate list carrying its exact
similarity, and no candidate scores strictly higher. -/
theorem find_best_fuzzy_match_spec (field : String) (cs : List String)
    (j : String) (s : ℚ) (h : find_best_fuzzy_match field cs = some (j, s)) :
    j ∈ cs ∧ s = calculate_similarity field j ∧ 0 < s ∧
      ∀ c ∈ cs, calculate_similarity field c ≤ s := by
  have hbase : fbfmInv field [] none := by
    simp only [fbfmInv]
    intro c hc
    exact absurd hc (List.not_mem_nil c)
  have hfold := fbfm_fold field cs [] none hbase
  rw [show cs.foldl (fbfmStep field) none = find_best_fuzzy_match field cs from rfl,
    h] at hfold
  simpa [fbfmInv] using hfold

/-- Invariant established by the exact pass of `_find_matches`. -/
def ExactInv (p : List (String × String × MatchType) × List String) : Prop :=
  p.2 = p.1.map (fun m => m.1)
  ∧ (∀ m ∈ p.1, m.2.1 = m.1 ∧ m.2.2 = MatchType.exact)
  ∧ (p.1.map (fun m => m.1)).Nodup
  ∧ (∀ x ∈ p.2, (x, x, MatchType.exact) ∈ p.1)

theorem exactStep_inv (js : List String)
    (acc : List (String × String × MatchType) × List String) (db : String)
    (h : ExactInv acc) : ExactInv (exactStep js acc db) := by
  obtain ⟨h1, h2, h3, h4⟩ := h
  unfold exactStep
  split
  · next hc =>
    refine ⟨by rw [h1]; simp, ?_, ?_, ?_⟩
    · intro m hm
      rcases List.mem_append.mp hm with hm | hm
      · exact h2 m hm
      · simp only [List.mem_singleton] at hm
        subst hm
        exact ⟨rfl, rfl⟩
    · rw [List.map_append]
      refine List.nodup_append.mpr ⟨h3, List.nodup_singleton _, ?_⟩
      intro x hx hx'
      simp only [List.map_cons, List.map_nil, List.mem_singleton] at hx'
      subst hx'
      exact hc.2 (h1 ▸ hx)
    · intro x hx
      rcases List.mem_append.mp hx with hx | hx
      · exact List.mem_append_left _ (h4 x hx)
      · simp only [List.mem_singleton] at hx
        subst hx
        simp
  · exact ⟨h1, h2, h3, h4⟩

theorem exact_fold_inv (js : List String) (l : List String) :
    ∀ acc, ExactInv acc → ExactInv (l.foldl (exactStep js) acc) := by
  induction l with
  | nil => intro acc h; exact h
  | cons a t ih => intro acc h; exact ih _ (exactStep_inv js acc a h)

theorem exactStep_sub (js : List String)
    (acc : List (String × String × MatchType) × List String) (db : String) :
    ∀ m ∈ acc.1, m ∈ (exactStep js acc db).1 := by
  intro m hm
  unfold exactStep
  split
  · exact List.mem_append_left _ hm
  · exact hm

theorem exact_fold_sub (js : List String) (l : List String) :
    ∀ acc, ∀ m ∈ acc.1, m ∈ (l.foldl (exactStep js) acc).1 := by
  induction l with
  | nil => intro acc m hm; exact hm
  | cons a t ih => intro acc m hm; exact ih _ m (exactStep_sub js acc a m hm)

theorem exact_fold_mem (js : List String) (l : List String) :
    ∀ acc, ExactInv acc → ∀ d ∈ l, d ∈ js →
      (d, d, MatchType.exact) ∈ (l.foldl (exactStep js) acc).1 := by
  induction l with
  | nil => intro acc _ d hd; exact absurd hd (List.not_mem_nil d)
  | cons a t ih =>
    intro acc hinv d hd hdjs
    rcases List.mem_cons.mp hd with rfl | hd'
    · by_cases hc : d ∈ js ∧ d ∉ acc.2
      · have hmem : (d, d, MatchType.exact) ∈ (exactStep js acc d).1 := by
          unfold exactStep
          rw [if_pos hc]
          simp
        exact exact_fold_sub js t _ _ hmem
      · have ha2 : d ∈ acc.2 := by
          by_contra h2
          exact hc ⟨hdjs, h2⟩
        exact exact_fold_sub js t _ _
          (exactStep_sub js acc d _ (hinv.2.2.2 d ha2))
    · exact ih _ (exactStep_inv js acc a hinv) d hd' hdjs

/-- Invariant maintained by the fuzzy pass of `_find_matches`. -/
def FuzzyInv (th : ℚ)
    (p : List (String × String × MatchType) × List String) : Prop :=
  (∀ m ∈ p.1, m.2.1 ∈ p.2)
  ∧ (p.1.map (fun m => m.1)).Nodup
  ∧ (p.1.map (fun m => m.2.1)).Nodup
  ∧ (∀ m ∈ p.1, (m.2.2 = MatchType.exact ∧ m.2.1 = m.1)
      ∨ (∃ s, m.2.2 = MatchType.fuzzy s ∧ th ≤ s
          ∧ s = calculate_similarity m.1 m.2.1))

theorem exactInv_fuzzyInv (th : ℚ)
    (p : List (String × String × MatchType) × List String)
    (h : ExactInv p) : FuzzyInv th p := by
  obtain ⟨h1, h2, h3, h4⟩ := h
  refine ⟨?_, h3, ?_, ?_⟩
  · intro m hm
    rw [h1, (h2 m hm).1]
    exact List.mem_map_of_mem (fun m => m.1) hm
  · have : p.1.map (fun m => m.2.1) = p.1.map (fun m => m.1) :=
      List.map_congr_left (fun m hm => (h2 m hm).1)
    rw [this]
    exact h3
  · intro m hm
    exact Or.inl ⟨(h2 m hm).2, (h2 m hm).1⟩

theorem fuzzyStep_inv (th : ℚ) (js : List String)
    (acc : List (String × String × MatchType) × List String) (db : String)
    (h : FuzzyInv th acc) : FuzzyInv th (fuzzyStep th js acc db) := by
  obtain ⟨h1, h2, h3, h4⟩ := h
  unfold fuzzyStep
  split
  · exact ⟨h1, h2, h3, h4⟩
  · next hdb =>
    split
    · next jf s heq =>
      have hspec := find_best_fuzzy_match_spec db _ jf s heq
      have hjf_filter := hspec.1
      have hjf_js : jf ∈ js := (List.mem_filter.mp hjf_filter).1
      have hjf_unused : jf ∉ acc.2 := by
        have := (List.mem_filter.mp hjf_filter).2
        simpa using this
      split
      · next hth =>
        refine ⟨?_, ?_, ?_, ?_⟩
        · intro m hm
          rcases List.mem_append.mp hm with hm | hm
          · exact List.mem_append_left _ (h1 m hm)
          · simp only [List.mem_singleton] at hm
            subst hm
            simp
        · rw [List.map_append]
          refine List.nodup_append.mpr ⟨h2, List.nodup_singleton _, ?_⟩
          intro x hx hx'
          simp only [List.map_cons, List.map_nil, List.mem_singleton] at hx'
          subst hx'
          exact hdb hx
        · rw [List.map_append]
          refine List.nodup_append.mpr ⟨h3, List.nodup_singleton _, ?_⟩
          intro x hx hx'
          simp only [List.map_cons, List.map_nil, List.mem_singleton] at hx'
          subst hx'
          rcases List.mem_map.mp hx with ⟨m, hm, hmx⟩
          exact hjf_unused (hmx ▸ h1 m hm)
        · intro m hm
          rcases List.mem_append.mp hm with hm | hm
          · exact h4 m hm
          · simp only [List.mem_singleton] at hm
            subst hm
            exact Or.inr ⟨s, rfl, hth, hspec.2.1⟩
      · exact ⟨h1, h2, h3, h4⟩
    · exact ⟨h1, h2, h3, h4⟩

theorem fuzzy_fold_inv (th : ℚ) (js : List String) (l : List String) :
    ∀ acc, FuzzyInv th acc → FuzzyInv th (l.foldl (fuzzyStep th js) acc) := by
  induction l with
  | nil => intro acc h; exact h
  | cons a t ih => intro acc h; exact ih _ (fuzzyStep_inv th js acc a h)

theorem fuzzyStep_sub (th : ℚ) (js : List String)
    (acc : List (String × String × MatchType) × List String) (db : String) :
    ∀ m ∈ acc.1, m ∈ (fuzzyStep th js acc db).1 := by
  intro m hm
  unfold fuzzyStep
  split
  · exact hm
  · split
    · split
      · exact List.mem_append_left _ hm
      · exact hm
    · exact hm

theorem fuzzy_fold_sub (th : ℚ) (js : List String) (l : List String) :
    ∀ acc, ∀ m ∈ acc.1, m ∈ (l.foldl (fuzzyStep th js) acc).1 := by
  induction l with
  | nil => intro acc m hm; exact hm
  | cons a t ih => intro acc m hm; exact ih _ m (fuzzyStep_sub th js acc a m hm)

/-- The result of `_find_matches` always satisfies the fuzzy-pass
invariant (with the used-field list of the underlying fold). -/
theorem find_matches_inv (fz : Bool) (th : ℚ) (dbs js : List String) :
    ∃ used, FuzzyInv th (find_matches fz th dbs js, used) := by
  have hexact : ExactInv (dbs.foldl (exactStep js) ([], [])) :=
    exact_fold_inv js dbs ([], [])
      ⟨rfl, fun m hm => absurd hm (List.not_mem_nil m), List.nodup_nil,
        fun x hx => absurd hx (List.not_mem_nil x)⟩
  cases fz with
  | false =>
    exact ⟨(dbs.foldl (exactStep js) ([], [])).2, exactInv_fuzzyInv th _ hexact⟩
  | true =>
    refine ⟨(dbs.foldl (fuzzyStep th js) (dbs.foldl (exactStep js) ([], []))).2, ?_⟩
    exact fuzzy_fold_inv th js dbs _ (exactInv_fuzzyInv th _ hexact)

theorem find_matches_nodup_db (fz : Bool) (th : ℚ) (dbs js : List String) :
    ((find_matches fz th dbs js).map (fun m => m.1)).Nodup := by
  obtain ⟨used, hinv⟩ := find_matches_inv fz th dbs js
  exact hinv.2.1

theorem find_matches_nodup_json (fz : Bool) (th : ℚ) (dbs js : List String) :
    ((find_matches fz th dbs js).map (fun m => m.2.1)).Nodup := by
  obtain ⟨used, hinv⟩ := find_matches_inv fz th dbs js
  exact hinv.2.2.1

theorem find_matches_kinds (fz : Bool) (th : ℚ) (dbs js : List String) :
    ∀ m ∈ find_matches fz th dbs js,
      (m.2.2 = MatchType.exact ∧ m.2.1 = m.1)
      ∨ (∃ s, m.2.2 = MatchType.fuzzy s ∧ th ≤ s
          ∧ s = calculate_similarity m.1 m.2.1) := by
  obtain ⟨used, hinv⟩ := find_matches_inv fz th dbs js
  exact hinv.2.2.2

theorem find_matches_exact_mem (fz : Bool) (th : ℚ) (dbs js : List String)
    (d : String) (hd : d ∈ dbs) (hj : d ∈ js) :
    (d, d, MatchType.exact) ∈ find_matches fz th dbs js := by
  have hbase : ExactInv (([], []) :
      List (String × String × MatchType) × List String) :=
    ⟨rfl, fun m hm => absurd hm (List.not_mem_nil m), List.nodup_nil,
      fun x hx => absurd hx (List.not_mem_nil x)⟩
  have hmem := exact_fold_mem js dbs ([], []) hbase d hd hj
  cases fz with
  | false => exact hmem
  | true => exact fuzzy_fold_sub th js dbs _ _ hmem

theorem find_matches_no_fuzzy_for_exact (fz : Bool) (th : ℚ)
    (dbs js : List String) (d : String) (hd : d ∈ dbs) (hj : d ∈ js) :
    ∀ j s, (d, j, MatchType.fuzzy s) ∉ find_matches fz th dbs js := by
  intro j s hmem
  have hex := find_matches_exact_mem fz th dbs js d hd hj
  have hnodup := find_matches_nodup_db fz th dbs js
  have heq := List.inj_on_of_nodup_map hnodup hex hmem rfl
  simp at heq

/-! ## Claims C2 and C3 -/

/-- Claim C2: in every match list produced by the passes, each json field
is claimed by at most one pair (the json components are duplicate-free),
and a db field whose normalized key also occurs among the json fields is
matched as `exact` and never appears in a fuzzy pair; concretely,
catalog `"HalfLife"` against JSON `"Half Life"` is reported as an exact
match by `compare`. -/
theorem C2_exact_priority :
    (∀ (fz : Bool) (th : ℚ) (dbs js : List String),
      ((find_matches fz th dbs js).map (fun m => m.2.1)).Nodup)
    ∧ (∀ (fz : Bool) (th : ℚ) (dbs js : List String) (d : String),
        d ∈ dbs → d ∈ js →
          (d, d, MatchType.exact) ∈ find_matches fz th dbs js
          ∧ ∀ j s, (d, j, MatchType.fuzzy s) ∉ find_matches fz th dbs js)
    ∧ (compare ⟨false, true, mkRat 4 5⟩ [("HalfLife")] [("Half Life")]
        ("") ("") [] [] []).map
        (fun r => (r.db_field, r.json_field, r.status, r.match_type))
        = [(("HalfLife"), ("Half Life"), ("matched"), MatchType.exact)] := by
  refine ⟨find_matches_nodup_json, ?_, by decide⟩
  intro fz th dbs js d hd hj
  exact ⟨find_matches_exact_mem fz th dbs js d hd hj,
    find_matches_no_fuzzy_for_exact fz th dbs js d hd hj⟩

theorem C2_witness :
    (("halflife" : String), ("halflife" : String), MatchType.exact)
      ∈ find_matches true (mkRat 4 5) [("halflife")] [("halflife")]
    ∧ ((find_matches true (mkRat 4 5) [("halflife")] [("halflife")]).map
        (fun m => m.2.1)).Nodup :=
  ⟨(C2_exact_priority.2.1 true (mkRat 4 5) [("halflife")] [("halflife")]
      ("halflife") (by decide) (by decide)).1,
   C2_exact_priority.1 true (mkRat 4 5) [("halflife")] [("halflife")]⟩

/-- Claim C3: a fuzzy binding carries exactly the Ratcliff/Obershelp
similarity of its two fields and is accepted only when that score reaches
the threshold; `_find_best_fuzzy_match` returns a candidate of maximal
similarity.  Concretely `"clearence"`/`"clearance"` score 8/9 ≈ 0.89:
accepted at threshold 0.8, rejected at 0.95 with both fields reported
unmatched on their own sides. -/
theorem C3_fuzzy_threshold :
    (∀ (th : ℚ) (dbs js : List String) (d j : String) (s : ℚ),
        (d, j, MatchType.fuzzy s) ∈ find_matches true th dbs js →
          th ≤ s ∧ s = calculate_similarity d j)
    ∧ (∀ (f : String) (cs : List String) (j : String) (s : ℚ),
        find_best_fuzzy_match f cs = some (j, s) →
          j ∈ cs ∧ s = calculate_similarity f j
          ∧ ∀ c ∈ cs, calculate_similarity f c ≤ s)
    ∧ calculate_similarity ("clearence") ("clearance") = 8 / 9
    ∧ (compare ⟨false, true, (0.8 : ℚ)⟩ [("Clearence")] [("Clearance")]
        ("") ("") [] [] []).map
        (fun r => (r.db_field, r.json_field, r.status, r.match_type))
        = [(("Clearence"), ("Clearance"), ("matched"), MatchType.fuzzy (8 / 9))]
    ∧ (compare ⟨false, true, (0.95 : ℚ)⟩ [("Clearence")] [("Clearance")]
        ("") ("") [] [] []).map
        (fun r => (r.db_field, r.json_field, r.status))
        = [(("Clearence"), (""), ("unmatched_db")),
           ((""), ("Clearance"), ("unmatched_json"))] := by
  have h08 : (0.8 : ℚ) = mkRat 4 5 := by norm_num [Rat.mkRat_eq_div]
  have h095 : (0.95 : ℚ) = mkRat 95 100 := by norm_num [Rat.mkRat_eq_div]
  have h89 : (8 / 9 : ℚ) = mkRat 16 18 := by norm_num [Rat.mkRat_eq_div]
  refine ⟨?_, ?_, ?_, ?_, ?_⟩
  · intro th dbs js d j s hmem
    have hk := find_matches_kinds true th dbs js _ hmem
    rcases hk with ⟨habs, _⟩ | ⟨s', hs', hth, hsim⟩
    · exact absurd habs (by simp)
    · have : s = s' := by
        have := hs'
        simpa using this
      subst this
      exact ⟨hth, hsim⟩
  · intro f cs j s h
    have := find_best_fuzzy_match_spec f cs j s h
    exact ⟨this.1, this.2.1, this.2.2.2⟩
  · rw [h89]; decide
  · rw [h08, h89]; decide
  · rw [h095]; decide

theorem C3_witness :
    (mkRat 4 5 ≤ mkRat 16 18
      ∧ mkRat 16 18 = calculate_similarity ("clearence") ("clearance"))
    ∧ (("clearance" : String) ∈ [("clearance")]
      ∧ mkRat 16 18 = calculate_similarity ("clearence") ("clearance")
      ∧ ∀ c ∈ [("clearance")],
          calculate_similarity ("clearence") c ≤ mkRat 16 18) :=
  ⟨C3_fuzzy_threshold.1 (mkRat 4 5) [("clearence")] [("clearance")]
      ("clearence") ("clearance") (mkRat 16 18) (by decide),
   C3_fuzzy_threshold.2.1 ("clearence") [("clearance")] ("clearance")
      (mkRat 16 18) (by decide)⟩

/-! ## Claim C10: statistics consistency -/

theorem matchedPass_mem (cfg : CompareConfig)
    (catMapN arrMapN : List (String × String)) (nullMapN : List (String × Bool))
    (dbOrig jsOrig : List (String × String)) (tn jf : String)
    (pairs : List (String × String × MatchType)) :
    ∀ r ∈ matchedPass cfg catMapN arrMapN nullMapN dbOrig jsOrig tn jf pairs,
      r.status = "matched" ∧ ∃ p ∈ pairs, r.match_type = p.2.2 := by
  intro r hr
  rcases List.mem_filterMap.mp hr with ⟨p, hp, heq⟩
  by_cases hflag : nullFlag cfg catMapN arrMapN nullMapN p.1 = true
  · rw [if_pos hflag] at heq
    exact absurd heq (by simp)
  · rw [if_neg hflag] at heq
    have hr' : mkMatchedRecord dbOrig jsOrig tn jf p = r := Option.some.inj heq
    rw [← hr']
    exact ⟨rfl, ⟨p, hp, rfl⟩⟩

theorem unmatchedDbPass_mem (cfg : CompareConfig)
    (catMapN arrMapN : List (String × String)) (nullMapN : List (String × Bool))
    (dbOrig : List (String × String)) (tn jf : String)
    (matchedDb dbN : List String) :
    ∀ r ∈ unmatchedDbPass cfg catMapN arrMapN nullMapN dbOrig tn jf matchedDb dbN,
      r.status = "unmatched_db" := by
  intro r hr
  rcases List.mem_filterMap.mp hr with ⟨db, hdb, heq⟩
  by_cases h1 : db ∈ matchedDb
  · rw [if_pos h1] at heq
    exact absurd heq (by simp)
  · rw [if_neg h1] at heq
    by_cases h2 : nullFlag cfg catMapN arrMapN nullMapN db
        ∧ ¬ (pyDictContains catMapN db = true)
    · rw [if_pos h2] at heq
      exact absurd heq (by simp)
    · rw [if_neg h2] at heq
      have hr' : mkUnmatchedDbRecord dbOrig catMapN tn jf db = r :=
        Option.some.inj heq
      rw [← hr']
      rfl

theorem unmatchedJsonPass_mem (jsOrig : List (String × String))
    (tn jf : String) (matchedJson jsN : List String) :
    ∀ r ∈ unmatchedJsonPass jsOrig tn jf matchedJson jsN,
      r.status = "unmatched_json" := by
  intro r hr
  rcases List.mem_filterMap.mp hr with ⟨x, hx, heq⟩
  by_cases h1 : x ∈ matchedJson
  · rw [if_pos h1] at heq
    exact absurd heq (by simp)
  · rw [if_neg h1] at heq
    have hr' : mkUnmatchedJsonRecord jsOrig tn jf x = r := Option.some.inj heq
    rw [← hr']
    rfl

/-- Every row of a `compare` result has one of the three statuses, and a
`matched` row carries an `exact` or `fuzzy` match type. -/
theorem compare_classify (cfg : CompareConfig) (dbs js : List String)
    (tn jf : String) (cat : List (String × String))
    (nul : List (String × Bool)) (arr : List (String × String)) :
    ∀ r ∈ compare cfg dbs js tn jf cat nul arr,
      (r.status = "matched"
        ∧ (mtHasExact r.match_type = true ∨ mtHasFuzzy r.match_type = true))
      ∨ r.status = "unmatched_db" ∨ r.status = "unmatched_json" := by
  intro r hr
  unfold compare at hr
  rcases List.mem_append.mp hr with hr' | hr3
  · rcases List.mem_append.mp hr' with hr1 | hr2
    · left
      have := matchedPass_mem cfg _ _ _ _ _ tn jf _ r hr1
      refine ⟨this.1, ?_⟩
      rcases this.2 with ⟨p, hp, hmt⟩
      have hk := find_matches_kinds cfg.fuzzy_match cfg.similarity_threshold
        _ _ p hp
      rcases hk with ⟨hex, _⟩ | ⟨s, hfz, _, _⟩
      · left; rw [hmt, hex]; rfl
      · right; rw [hmt, hfz]; rfl
    · right; left
      exact unmatchedDbPass_mem cfg _ _ _ _ tn jf _ _ r hr2
  · right; right
    exact unmatchedJsonPass_mem _ tn jf _ _ r hr3

theorem statStep_total (st : CompareStats) (r : ResultRecord) :
    (statStep st r).total = st.total := by
  unfold statStep
  split_ifs <;> rfl

theorem statStep_matched (st : CompareStats) (r : ResultRecord) :
    (statStep st r).matched
      = st.matched + (if r.status = "matched" then 1 else 0) := by
  unfold statStep
  split_ifs <;> simp_all

theorem statStep_udb (st : CompareStats) (r : ResultRecord) :
    (statStep st r).unmatched_db
      = st.unmatched_db + (if r.status = "unmatched_db" then 1 else 0) := by
  unfold statStep
  split_ifs <;> simp_all

theorem statStep_ujs (st : CompareStats) (r : ResultRecord) :
    (statStep st r).unmatched_json
      = st.unmatched_json + (if r.status = "unmatched_json" then 1 else 0) := by
  unfold statStep
  split_ifs <;> simp_all

theorem statStep_exact (st : CompareStats) (r : ResultRecord) :
    (statStep st r).exact_matches
      = st.exact_matches + (if r.status = "matched" ∧ mtHasExact r.match_type = true
          then 1 else 0) := by
  unfold statStep
  split_ifs <;> simp_all

theorem statStep_fuzzy (st : CompareStats) (r : ResultRecord) :
    (statStep st r).fuzzy_matches
      = st.fuzzy_matches + (if r.status = "matched"
          ∧ ¬ (mtHasExact r.match_type = true) ∧ mtHasFuzzy r.match_type = true
          then 1 else 0) := by
  unfold statStep
  split_ifs <;> simp_all

theorem statFold_total (rs : List ResultRecord) :
    ∀ st : CompareStats, (rs.foldl statStep st).total = st.total := by
  induction rs with
  | nil => intro st; rfl
  | cons r t ih =>
    intro st
    simp only [List.foldl_cons]
    rw [ih, statStep_total]

theorem statFold_matched (rs : List ResultRecord) :
    ∀ st : CompareStats, (rs.foldl statStep st).matched
      = st.matched + rs.countP (fun r => decide (r.status = "matched")) := by
  induction rs with
  | nil => intro st; simp
  | cons r t ih =>
    intro st
    simp only [List.foldl_cons, List.countP_cons]
    rw [ih, statStep_matched]
    by_cases hc : r.status = "matched" <;> simp [hc] <;> omega

theorem statFold_udb (rs : List ResultRecord) :
    ∀ st : CompareStats, (rs.foldl statStep st).unmatched_db
      = st.unmatched_db + rs.countP (fun r => decide (r.status = "unmatched_db")) := by
  induction rs with
  | nil => intro st; simp
  | cons r t ih =>
    intro st
    simp only [List.foldl_cons, List.countP_cons]
    rw [ih, statStep_udb]
    by_cases hc : r.status = "unmatched_db" <;> simp [hc] <;> omega

theorem statFold_ujs (rs : List ResultRecord) :
    ∀ st : CompareStats, (rs.foldl statStep st).unmatched_json
      = st.unmatched_json + rs.countP (fun r => decide (r.status = "unmatched_json")) := by
  induction rs with
  | nil => intro st; simp
  | cons r t ih =>
    intro st
    simp only [List.foldl_cons, List.countP_cons]
    rw [ih, statStep_ujs]
    by_cases hc : r.status = "unmatched_json" <;> simp [hc] <;> omega

theorem statFold_exact (rs : List ResultRecord) :
    ∀ st : CompareStats, (rs.foldl statStep st).exact_matches
      = st.exact_matches + rs.countP (fun r =>
          decide (r.status = "matched" ∧ mtHasExact r.match_type = true)) := by
  induction rs with
  | nil => intro st; simp
  | cons r t ih =>
    intro st
    simp only [List.foldl_cons, List.countP_cons]
    rw [ih, statStep_exact]
    by_cases hc : r.status = "matched" ∧ mtHasExact r.match_type = true <;>
      simp [hc] <;> omega

theorem statFold_fuzzy (rs : List ResultRecord) :
    ∀ st : CompareStats, (rs.foldl statStep st).fuzzy_matches
      = st.fuzzy_matches + rs.countP (fun r =>
          decide (r.status = "matched"
            ∧ ¬ (mtHasExact r.match_type = true) ∧ mtHasFuzzy r.match_type = true)) := by
  induction rs with
  | nil => intro st; simp
  | cons r t ih =>
    intro st
    simp only [List.foldl_cons, List.countP_cons]
    rw [ih, statStep_fuzzy]
    by_cases hc : r.status = "matched"
        ∧ ¬ (mtHasExact r.match_type = true) ∧ mtHasFuzzy r.match_type = true <;>
      simp [hc] <;> omega

/-- Records classified into the three statuses partition the length. -/
theorem count_status_partition (rs : List ResultRecord)
    (h : ∀ r ∈ rs, (r.status = "matched"
        ∧ (mtHasExact r.match_type = true ∨ mtHasFuzzy r.match_type = true))
      ∨ r.status = "unmatched_db" ∨ r.status = "unmatched_json") :
    rs.length = rs.countP (fun r => decide (r.status = "matched"))
      + rs.countP (fun r => decide (r.status = "unmatched_db"))
      + rs.countP (fun r => decide (r.status = "unmatched_json")) := by
  induction rs with
  | nil => simp
  | cons r t ih =>
    have ht := ih (fun x hx => h x (List.mem_cons_of_mem r hx))
    simp only [List.length_cons, List.countP_cons]
    rcases h r (List.mem_cons_self r t) with ⟨hs, _⟩ | hs | hs <;>
      rw [hs] <;> simp at ht ⊢ <;> omega

/-- Matched records split into exact-counted and fuzzy-counted ones. -/
theorem count_matched_partition (rs : List ResultRecord)
    (h : ∀ r ∈ rs, (r.status = "matched"
        ∧ (mtHasExact r.match_type = true ∨ mtHasFuzzy r.match_type = true))
      ∨ r.status = "unmatched_db" ∨ r.status = "unmatched_json") :
    rs.countP (fun r => decide (r.status = "matched"))
      = rs.countP (fun r =>
          decide (r.status = "matched" ∧ mtHasExact r.match_type = true))
      + rs.countP (fun r =>
          decide (r.status = "matched"
            ∧ ¬ (mtHasExact r.match_type = true) ∧ mtHasFuzzy r.match_type = true)) := by
  induction rs with
  | nil => simp
  | cons r t ih =>
    have ht := ih (fun x hx => h x (List.mem_cons_of_mem r hx))
    simp only [List.countP_cons]
    rcases h r (List.mem_cons_self r t) with ⟨hs, hmt⟩ | hs | hs
    · by_cases hex : mtHasExact r.match_type = true
      · simp [hs, hex] at ht ⊢ ; omega
      · have hfz : mtHasFuzzy r.match_type = true := hmt.resolve_left hex
        simp [hs, hex, hfz] at ht ⊢ ; omega
    · have hne : r.status ≠ "matched" := by rw [hs]; decide
      simp [hne] at ht ⊢ ; omega
    · have hne : r.status ≠ "matched" := by rw [hs]; decide
      simp [hne] at ht ⊢ ; omega

/-- Claim C10: for every result list returned by `compare`, the statistics
computed from it satisfy `total = matched + unmatched_db + unmatched_json`
and `matched = exact_matches + fuzzy_matches`. -/
theorem C10_statistics_consistent (cfg : CompareConfig) (dbs js : List String)
    (tn jf : String) (cat : List (String × String))
    (nul : List (String × Bool)) (arr : List (String × String)) :
    (get_statistics (compare cfg dbs js tn jf cat nul arr)).total
      = (get_statistics (compare cfg dbs js tn jf cat nul arr)).matched
        + (get_statistics (compare cfg dbs js tn jf cat nul arr)).unmatched_db
        + (get_statistics (compare cfg dbs js tn jf cat nul arr)).unmatched_json
    ∧ (get_statistics (compare cfg dbs js tn jf cat nul arr)).matched
      = (get_statistics (compare cfg dbs js tn jf cat nul arr)).exact_matches
        + (get_statistics (compare cfg dbs js tn jf cat nul arr)).fuzzy_matches := by
  have hcls := compare_classify cfg dbs js tn jf cat nul arr
  unfold get_statistics
  constructor
  · rw [statFold_total, statFold_matched, statFold_udb, statFold_ujs]
    simp only [Nat.zero_add]
    exact count_status_partition _ hcls
  · rw [statFold_matched, statFold_exact, statFold_fuzzy]
    simp only [Nat.zero_add]
    exact count_matched_partition _ hcls

/-! ## Claim C1: suppression of category-null unmatched fields -/

/-- Claim C1 as stated is false on the code: for JSON `{"bioactivity": []}`
(null-category map `{bioactivity: true}`, empty json field list) and
catalog category `bioactivity` containing `Measure`, the field `Measure`
is not suppressed — `compare` returns it as an `unmatched_db` row (with
its category), because a field that is a key of the field→category
mapping is reported even when its category is null. -/
theorem C1_counterexample :
    (compare ⟨false, true, mkRat 4 5⟩ [("Measure")] [] ("") ("")
      [(("Measure"), ("bioactivity"))] [(("bioactivity"), true)] []).map
      (fun r => (r.field_name, r.status, r.category))
      = [(("Measure"), ("unmatched_db"), ("bioactivity"))] := by decide

theorem filterMap_two_guards {α : Type} (g : α → ResultRecord)
    (c1 c2 : α → Prop) [DecidablePred c1] [DecidablePred c2] :
    ∀ l : List α,
      (l.filterMap (fun d => if c1 d then none
          else if c2 d then none else some (g d)))
        = (l.filter (fun d => decide (¬ c1 d ∧ ¬ c2 d))).map g := by
  intro l
  induction l with
  | nil => rfl
  | cons d t ih =>
    by_cases h1 : c1 d
    · simp [List.filterMap_cons, List.filter_cons, h1, ih]
    · by_cases h2 : c2 d
      · simp [List.filterMap_cons, List.filter_cons, h1, h2, ih]
      · simp [List.filterMap_cons, List.filter_cons, h1, h2, ih]

theorem unmatchedDbPass_eq_filter (cfg : CompareConfig)
    (catMapN arrMapN : List (String × String)) (nullMapN : List (String × Bool))
    (dbOrig : List (String × String)) (tn jf : String)
    (matchedDb dbN : List String) :
    unmatchedDbPass cfg catMapN arrMapN nullMapN dbOrig tn jf matchedDb dbN
      = (dbN.filter (fun d => decide (d ∉ matchedDb
          ∧ (pyDictContains catMapN d = true
            ∨ ¬ (nullFlag cfg catMapN arrMapN nullMapN d = true))))).map
        (mkUnmatchedDbRecord dbOrig catMapN tn jf) := by
  unfold unmatchedDbPass
  rw [filterMap_two_guards (mkUnmatchedDbRecord dbOrig catMapN tn jf)
    (fun d => d ∈ matchedDb)
    (fun d => nullFlag cfg catMapN arrMapN nullMapN d
      ∧ ¬ (pyDictContains catMapN d = true)) dbN]
  congr 1
  apply List.filter_congr
  intro d _
  apply decide_eq_decide.mpr
  constructor
  · rintro ⟨hn, hng⟩
    refine ⟨hn, ?_⟩
    by_cases hc : pyDictContains catMapN d = true
    · exact Or.inl hc
    · refine Or.inr ?_
      intro hflag
      exact hng ⟨hflag, hc⟩
  · rintro ⟨hn, hor⟩
    refine ⟨hn, ?_⟩
    rintro ⟨hflag, hnc⟩
    rcases hor with hc | hnf
    · exact hnc hc
    · exact hnf hflag

/-- Claim C1, amended: in a `compare` result, the `unmatched_db` rows are
exactly the unmatched normalized db fields that are a key of the
normalized field→category mapping or carry no null flag.  Suppression of
a null-flagged field therefore happens only when the field is absent from
the field→category mapping; a catalog field whose null/empty category
owns it through that mapping is still reported (as the counterexample's
`Measure` is). -/
theorem C1_amended_unmatchedDb_rows (cfg : CompareConfig)
    (dbs js : List String) (tn jf : String) (cat : List (String × String))
    (nul : List (String × Bool)) (arr : List (String × String)) :
    (compare cfg dbs js tn jf cat nul arr).filter
        (fun r => decide (r.status = "unmatched_db"))
      = ((normalize_fields cfg.case_sensitive dbs).filter (fun d =>
          decide (d ∉ (find_matches cfg.fuzzy_match cfg.similarity_threshold
              (normalize_fields cfg.case_sensitive dbs)
              (normalize_fields cfg.case_sensitive js)).map (fun p => p.1)
            ∧ (pyDictContains (normCatMap cfg cat) d = true
              ∨ ¬ (nullFlag cfg (normCatMap cfg cat) (normArrMap cfg arr)
                    (normNullMap cfg nul) d = true))))).map
        (mkUnmatchedDbRecord
          ((normalize_fields cfg.case_sensitive dbs).zip dbs)
          (normCatMap cfg cat) tn jf) := by
  unfold compare
  rw [List.filter_append, List.filter_append]
  have hm : (matchedPass cfg (normCatMap cfg cat) (normArrMap cfg arr)
      (normNullMap cfg nul)
      ((normalize_fields cfg.case_sensitive dbs).zip dbs)
      ((normalize_fields cfg.case_sensitive js).zip js) tn jf
      (find_matches cfg.fuzzy_match cfg.similarity_threshold
        (normalize_fields cfg.case_sensitive dbs)
        (normalize_fields cfg.case_sensitive js))).filter
      (fun r => decide (r.status = "unmatched_db")) = [] := by
    apply List.filter_eq_nil.mpr
    intro r hr
    have := (matchedPass_mem _ _ _ _ _ _ _ _ _ r hr).1
    simp [this]
  have hu : (unmatchedDbPass cfg (normCatMap cfg cat) (normArrMap cfg arr)
      (normNullMap cfg nul)
      ((normalize_fields cfg.case_sensitive dbs).zip dbs) tn jf
      ((find_matches cfg.fuzzy_match cfg.similarity_threshold
        (normalize_fields cfg.case_sensitive dbs)
        (normalize_fields cfg.case_sensitive js)).map (fun p => p.1))
      (normalize_fields cfg.case_sensitive dbs)).filter
      (fun r => decide (r.status = "unmatched_db")) =
      unmatchedDbPass cfg (normCatMap cfg cat) (normArrMap cfg arr)
      (normNullMap cfg nul)
      ((normalize_fields cfg.case_sensitive dbs).zip dbs) tn jf
      ((find_matches cfg.fuzzy_match cfg.similarity_threshold
        (normalize_fields cfg.case_sensitive dbs)
        (normalize_fields cfg.case_sensitive js)).map (fun p => p.1))
      (normalize_fields cfg.case_sensitive dbs) := by
    apply List.filter_eq_self.mpr
    intro r hr
    have := unmatchedDbPass_mem _ _ _ _ _ _ _ _ _ r hr
    simp [this]
  rw [hm, hu]
  simp only [List.nil_append]
  rw [show (unmatchedJsonPass
      ((normalize_fields cfg.case_sensitive js).zip js) tn jf
      ((find_matches cfg.fuzzy_match cfg.similarity_threshold
        (normalize_fields cfg.case_sensitive dbs)
        (normalize_fields cfg.case_sensitive js)).map (fun p => p.2.1))
      (normalize_fields cfg.case_sensitive js)).filter
      (fun r => decide (r.status = "unmatched_db")) = [] from by
    apply List.filter_eq_nil.mpr
    intro r hr
    have := unmatchedJsonPass_mem _ _ _ _ _ r hr
    simp [this]]
  rw [List.append_nil]
  exact unmatchedDbPass_eq_filter cfg _ _ _ _ tn jf _ _

/-! ## Claim C6: the null-category map -/

/-- Claim C6: for an object root, `check_null_categories` binds every
top-level key to true iff its value is JSON null or an empty array (and
nothing else), computed from the top level only; for an array root the
map comes from the first record only — the remaining records are
ignored entirely. -/
theorem C6_null_category_map :
    (∀ kvs : List (String × Json),
      check_null_categories (Json.obj kvs)
        = kvs.map (fun kv => (kv.1, isNullOrEmptyArray kv.2)))
    ∧ (∀ (kvs : List (String × Json)) (rest : List Json),
      check_null_categories (Json.arr (Json.obj kvs :: rest))
        = kvs.map (fun kv => (kv.1, isNullOrEmptyArray kv.2)))
    ∧ (∀ v : Json,
      isNullOrEmptyArray v = true ↔ (v = Json.null ∨ v = Json.arr [])) := by
  refine ⟨?_, ?_, ?_⟩
  · intro kvs
    cases kvs with
    | nil => rfl
    | cons kv t => rfl
  · intro kvs rest
    rfl
  · intro v
    cases v with
    | null => simp [isNullOrEmptyArray]
    | bool b => simp [isNullOrEmptyArray]
    | num n => simp [isNullOrEmptyArray]
    | str s => simp [isNullOrEmptyArray]
    | arr xs =>
      cases xs with
      | nil => simp [isNullOrEmptyArray]
      | cons x t => simp [isNullOrEmptyArray]
    | obj kvs => simp [isNullOrEmptyArray]

/-! ## Claim C7: validation exclusion -/

/-- Claim C7 as stated is false on the code: exclusion matching for
caller-supplied per-domain keywords is applied in one direction only
(keyword occurring inside the field name).  Field `"xyz"` with keyword
`"xyzzz"`: the normalized field name is a substring of the normalized
keyword, so the claimed bidirectional rule would exempt it, but the
function does not. -/
theorem C7_counterexample :
    is_excluded_field_with_database [(("db"), [("xyzzz")])] ("xyz") ("db") = false
    ∧ pyIn (exclNormalize ("xyz")) (exclNormalize ("xyzzz")) = true := by decide

/-- Claim C7, amended: a field is exempt exactly when some built-in token
matches its normalized name as a substring in either direction, or some
caller-supplied per-domain keyword, once normalized, occurs inside the
normalized field name (one direction only).  The normalization used here
lower-cases and strips space, underscore, hyphen, dot and colon.  The
hard-coded molstructure/helm/smiles/smile tests of the source are
subsumed by the built-in set. -/
theorem C7_amended_exclusion_iff (kwmap : List (String × List String))
    (fn db : String) :
    is_excluded_field_with_database kwmap fn db = true ↔
      ((∃ e ∈ default_excluded_from_validation,
          pyIn e (exclNormalize fn) = true ∨ pyIn (exclNormalize fn) e = true)
       ∨ (∃ kw ∈ dbExcludedKeywords kwmap db,
          pyIn (exclNormalize kw) (exclNormalize fn) = true)) := by
  constructor
  · intro h
    unfold is_excluded_field_with_database at h
    by_cases h1 : (default_excluded_from_validation.any (fun e =>
        pyIn e (exclNormalize fn) || pyIn (exclNormalize fn) e)) = true
    · left
      rcases List.any_eq_true.mp h1 with ⟨e, he, hor⟩
      exact ⟨e, he, (Bool.or_eq_true _ _).mp hor⟩
    · rw [if_neg h1] at h
      by_cases h2 : ((dbExcludedKeywords kwmap db).any (fun kw =>
          pyIn (exclNormalize kw) (exclNormalize fn))) = true
      · right
        rcases List.any_eq_true.mp h2 with ⟨kw, hkw, hp⟩
        exact ⟨kw, hkw, hp⟩
      · rw [if_neg h2] at h
        by_cases h3 : pyIn ("molstructure") (exclNormalize fn) = true
        · exact Or.inl ⟨("molstructure"), by decide, Or.inl h3⟩
        · rw [if_neg h3] at h
          by_cases h4 : pyIn ("helm") (exclNormalize fn) = true
          · exact Or.inl ⟨("helm"), by decide, Or.inl h4⟩
          · rw [if_neg h4] at h
            by_cases h5 : (pyIn ("smiles") (exclNormalize fn)
                || pyIn ("smile") (exclNormalize fn)) = true
            · rcases (Bool.or_eq_true _ _).mp h5 with h5a | h5b
              · exact Or.inl ⟨("smiles"), by decide, Or.inl h5a⟩
              · exact Or.inl ⟨("smile"), by decide, Or.inl h5b⟩
            · rw [if_neg h5] at h
              exact absurd h (by simp)
  · intro h
    unfold is_excluded_field_with_database
    rcases h with ⟨e, he, hor⟩ | ⟨kw, hkw, hp⟩
    · have h1 : (default_excluded_from_validation.any (fun e =>
          pyIn e (exclNormalize fn) || pyIn (exclNormalize fn) e)) = true :=
        List.any_eq_true.mpr ⟨e, he, (Bool.or_eq_true _ _).mpr hor⟩
      rw [if_pos h1]
    · by_cases h1 : (default_excluded_from_validation.any (fun e =>
          pyIn e (exclNormalize fn) || pyIn (exclNormalize fn) e)) = true
      · rw [if_pos h1]
      · rw [if_neg h1]
        have h2 : ((dbExcludedKeywords kwmap db).any (fun kw =>
            pyIn (exclNormalize kw) (exclNormalize fn))) = true :=
          List.any_eq_true.mpr ⟨kw, hkw, hp⟩
        rw [if_pos h2]

/-! ## Claim C9: first-element-only traversal -/

theorem pyDictGet_append_ne {α : Type} (l : List (String × α)) (k' : String)
    (v : α) (p : String) (h : ¬ (k' = p)) :
    pyDictGet (l ++ [(k', v)]) p = pyDictGet l p := by
  unfold pyDictGet
  rw [List.reverse_append]
  simp [List.find?_cons, h]

theorem pyDictGet_append_eq {α : Type} (l : List (String × α)) (v : α)
    (p : String) : pyDictGet (l ++ [(p, v)]) p = some v := by
  unfold pyDictGet
  rw [List.reverse_append]
  simp [List.find?_cons]

theorem pyDictGet_none_of_not_contains {α : Type} (l : List (String × α))
    (key : String) (h : ¬ (pyDictContains l key = true)) :
    pyDictGet l key = none := by
  unfold pyDictGet
  cases hf : l.reverse.find? (fun kv => decide (kv.1 = key)) with
  | none => rfl
  | some kv =>
    exfalso
    apply h
    unfold pyDictContains
    refine List.any_eq_true.mpr
      ⟨kv, List.mem_reverse.mp (List.mem_of_find?_eq_some hf), ?_⟩
    have hp := @List.find?_some (String × α)
      (fun kv => decide (kv.1 = key)) kv l.reverse hf
    simpa using hp

theorem pyDictGet_some_of_contains {α : Type} (l : List (String × α))
    (key : String) (h : pyDictContains l key = true) :
    ∃ w, pyDictGet l key = some w := by
  unfold pyDictContains at h
  rcases List.any_eq_true.mp h with ⟨kv, hkv, hp⟩
  unfold pyDictGet
  cases hf : l.reverse.find? (fun kv => decide (kv.1 = key)) with
  | some kv' => exact ⟨kv'.2, rfl⟩
  | none =>
    exfalso
    exact (List.find?_eq_none.mp hf kv (List.mem_reverse.mpr hkv)) hp

theorem efv_paths_fold (r : Json) (p : String) (paths : List String) :
    ∀ acc : List (String × Json),
      pyDictGet (paths.foldl (efvPathsStep r) acc) p
        = (pyDictGet acc p).or
            (if p ∈ paths then get_value_by_path r p else none) := by
  induction paths with
  | nil => intro acc; simp
  | cons q t ih =>
    intro acc
    simp only [List.foldl_cons]
    rw [ih]
    by_cases hq : q = p
    · subst hq
      cases hv : get_value_by_path r q with
      | none =>
        rw [show efvPathsStep r acc q = acc by simp [efvPathsStep, hv]]
        simp [hv]
      | some v =>
        by_cases hc : pyDictContains acc q = true
        · rw [show efvPathsStep r acc q = acc by simp [efvPathsStep, hv, hc]]
          obtain ⟨w, hw⟩ := pyDictGet_some_of_contains acc q hc
          rw [hw]
          rfl
        · rw [show efvPathsStep r acc q = acc ++ [(q, v)] by
            simp [efvPathsStep, hv, hc]]
          rw [pyDictGet_append_eq, pyDictGet_none_of_not_contains acc q hc]
          simp [hv]
    · have hstep : pyDictGet (efvPathsStep r acc q) p = pyDictGet acc p := by
        cases hv : get_value_by_path r q with
        | none => simp [efvPathsStep, hv]
        | some v =>
          by_cases hc : pyDictContains acc q = true
          · simp [efvPathsStep, hv, hc]
          · simp only [efvPathsStep, hv]
            rw [if_neg hc]
            exact pyDictGet_append_ne acc q v p hq
      rw [hstep]
      have hps : p ≠ q := fun hx => hq hx.symm
      by_cases hm : p ∈ t
      · rw [if_pos hm, if_pos (List.mem_cons_of_mem q hm)]
      · rw [if_neg hm, if_neg (fun hx => by
          rcases List.mem_cons.mp hx with hx | hx
          · exact hps hx
          · exact hm hx)]

theorem efv_records_fold (paths : List String) (p : String) (hp : p ∈ paths)
    (records : List Json) :
    ∀ acc : List (String × Json),
      pyDictGet (records.foldl (efvRecordStep paths) acc) p
        = (pyDictGet acc p).or (records.findSome? (recordValue p)) := by
  induction records with
  | nil => intro acc; simp
  | cons r t ih =>
    intro acc
    simp only [List.foldl_cons]
    rw [ih]
    cases r with
    | obj kvs =>
      rw [show efvRecordStep paths acc (Json.obj kvs)
          = paths.foldl (efvPathsStep (Json.obj kvs)) acc from rfl]
      rw [efv_paths_fold, if_pos hp]
      cases hv : get_value_by_path (Json.obj kvs) p with
      | none =>
        rw [show (List.findSome? (recordValue p) (Json.obj kvs :: t))
            = List.findSome? (recordValue p) t by
          rw [List.findSome?_cons]
          simp [recordValue, hv]]
        simp
      | some v =>
        rw [show (List.findSome? (recordValue p) (Json.obj kvs :: t))
            = some v by
          rw [List.findSome?_cons]
          simp [recordValue, hv]]
        cases hacc : pyDictGet acc p <;> rfl
    | null =>
      rw [show efvRecordStep paths acc Json.null = acc from rfl,
        show (List.findSome? (recordValue p) (Json.null :: t))
          = List.findSome? (recordValue p) t by
        rw [List.findSome?_cons]; rfl]
    | bool b =>
      rw [show efvRecordStep paths acc (Json.bool b) = acc from rfl,
        show (List.findSome? (recordValue p) (Json.bool b :: t))
          = List.findSome? (recordValue p) t by
        rw [List.findSome?_cons]; rfl]
    | num n =>
      rw [show efvRecordStep paths acc (Json.num n) = acc from rfl,
        show (List.findSome? (recordValue p) (Json.num n :: t))
          = List.findSome? (recordValue p) t by
        rw [List.findSome?_cons]; rfl]
    | str s =>
      rw [show efvRecordStep paths acc (Json.str s) = acc from rfl,
        show (List.findSome? (recordValue p) (Json.str s :: t))
          = List.findSome? (recordValue p) t by
        rw [List.findSome?_cons]; rfl]
    | arr xs =>
      rw [show efvRecordStep paths acc (Json.arr xs) = acc from rfl,
        show (List.findSome? (recordValue p) (Json.arr xs :: t))
          = List.findSome? (recordValue p) t by
        rw [List.findSome?_cons]; rfl]

/-- Claim C9: path traversal crosses an array through its first element
only (the tail never matters); for an array-root document, extraction
records, per path, exactly the first non-null value found across the
records in order; hence a string value present only in a later array
element is never seen by the value validator (concretely, the path
`arr1.f` extracts `"clean"` and never the second element's `"bad%"`, and
the array-root extraction skips a null first record in favour of the
first non-null one). -/
theorem C9_first_element_only :
    (∀ (k : String) (ks : List String) (x : Json) (rest : List Json),
        get_value_go (k :: ks) (Json.arr (x :: rest))
          = get_value_go (k :: ks) (Json.arr [x]))
    ∧ (∀ (records : List Json) (paths : List String) (p : String), p ∈ paths →
        pyDictGet (extract_field_values (Json.arr records) paths) p
          = records.findSome? (recordValue p))
    ∧ get_value_by_path (Json.obj [(("arr1"),
        Json.arr [Json.obj [(("f"), Json.str ("clean"))],
                  Json.obj [(("f"), Json.str ("bad%"))]])]) ("arr1.f")
        = some (Json.str ("clean"))
    ∧ extract_field_values (Json.arr [Json.obj [(("f"), Json.null)],
        Json.obj [(("f"), Json.str ("x"))]]) [("f")]
        = [(("f"), Json.str ("x"))] := by
  refine ⟨?_, ?_, rfl, rfl⟩
  · intro k ks x rest
    cases x <;> rfl
  · intro records paths p hp
    have h := efv_records_fold paths p hp records []
    rw [show extract_field_values (Json.arr records) paths
        = records.foldl (efvRecordStep paths) [] from rfl, h]
    rfl

theorem C9_witness :
    pyDictGet (extract_field_values (Json.arr [Json.obj [(("f"), Json.null)],
        Json.obj [(("f"), Json.str ("x"))]]) [("f")]) ("f")
      = ([Json.obj [(("f"), Json.null)],
          Json.obj [(("f"), Json.str ("x"))]]).findSome? (recordValue ("f")) :=
  C9_first_element_only.2.1
    [Json.obj [(("f"), Json.null)], Json.obj [(("f"), Json.str ("x"))]]
    [("f")] ("f") (by simp)

/-! ## Claim C8: parse recovery and batch isolation -/

/-- Claim C8: `load_json` retries after stripping a leading byte-order
mark and then after removing trailing commas before closing brackets, and
returns `none` (instead of raising) when every attempt fails; in the
batch loop one failed file only bumps the failure counter — processing
covers every file and the counters contribution of a failed file is
zero (the aggregate equals the fold over the successful files only). -/
theorem C8_load_recovery_batch_isolation :
    (∀ (parse : String → Option Json) (content : String) (d : Json),
        parse content = some d → load_json parse content = some d)
    ∧ (∀ (parse : String → Option Json) (content : String) (d : Json),
        parse content = none → content.startsWith ("﻿") = true →
        parse (bomStripped content) = some d →
        load_json parse content = some d)
    ∧ (∀ (parse : String → Option Json) (content : String),
        parse content = none → parse (bomStripped content) = none →
        parse (removeTrailingCommas (bomStripped content)) = none →
        load_json parse content = none)
    ∧ removeTrailingCommas ("[1, 2,]") = ("[1, 2]")
    ∧ (∀ (st : BatchState) (files : List (Option (List ResultRecord))),
        (processBatch st files).processed = st.processed + files.length
        ∧ (processBatch st files).failed
            = st.failed + files.countP (fun f => f.isNone)
        ∧ (processBatch st files).field_stats
            = (files.filterMap id).foldl aggregate_results st.field_stats) := by
  refine ⟨?_, ?_, ?_, by decide, ?_⟩
  · intro parse content d h
    unfold load_json
    rw [h]
  · intro parse content d h1 h2 h3
    unfold load_json
    rw [h1, if_pos h2, h3]
  · intro parse content h1 h2 h3
    unfold load_json
    rw [h1]
    have hsecond : (if content.startsWith ("﻿")
        then parse (bomStripped content) else none) = none := by
      by_cases hb : content.startsWith ("﻿") = true
      · rw [if_pos hb, h2]
      · rw [if_neg hb]
    rw [hsecond]
    by_cases hc : removeTrailingCommas (bomStripped content) ≠ bomStripped content
    · rw [if_pos hc, h3]
    · rw [if_neg hc]
  · intro st files
    induction files generalizing st with
    | nil => exact ⟨rfl, by simp [processBatch], rfl⟩
    | cons f t ih =>
      have hstep := ih (processFile st f)
      refine ⟨?_, ?_, ?_⟩
      · rw [show processBatch st (f :: t) = processBatch (processFile st f) t
            from rfl, hstep.1]
        cases f <;> simp [processFile] <;> omega
      · rw [show processBatch st (f :: t) = processBatch (processFile st f) t
            from rfl, hstep.2.1]
        cases f <;> simp [processFile, List.countP_cons] <;> omega
      · rw [show processBatch st (f :: t) = processBatch (processFile st f) t
            from rfl, hstep.2.2]
        cases f with
        | none => rfl
        | some rs => rfl

/-- A concrete parse function for exercising `load_json`. -/
def parseOnlyOk : String → Option Json :=
  fun s => if s = ("ok") then some (Json.obj []) else none

theorem C8_witness :
    load_json parseOnlyOk ("ok") = some (Json.obj [])
    ∧ load_json parseOnlyOk ("nope") = none :=
  ⟨C8_load_recovery_batch_isolation.1 parseOnlyOk ("ok") (Json.obj []) (by rfl),
   C8_load_recovery_batch_isolation.2.2.1 parseOnlyOk ("nope")
    (by rfl) (by rfl) (by rfl)⟩

/-! ## Claim C5: the aggregation fold is commutative -/

/-- The counter increment a single result row contributes for a field
name. -/
def recDelta (name : String) (r : ResultRecord) : FieldStat :=
  if name = r.field_name then
    if r.status = "matched" then ⟨1, 0, 0, 0⟩
    else if r.status = "unmatched_db" then
      if r.match_type ≠ MatchType.category_null then ⟨0, 1, 0, 0⟩
      else ⟨0, 0, 0, 0⟩
    else if r.status = "unmatched_json" then ⟨0, 0, 1, 0⟩
    else ⟨0, 0, 0, 0⟩
  else ⟨0, 0, 0, 0⟩

theorem addFieldStat_init (s : FieldStat) : addFieldStat s initFieldStat = s := by
  cases s
  simp [addFieldStat, initFieldStat]

theorem addFieldStat_init_left (s : FieldStat) :
    addFieldStat initFieldStat s = s := by
  cases s
  simp [addFieldStat, initFieldStat]

theorem addFieldStat_assoc (a b c : FieldStat) :
    addFieldStat (addFieldStat a b) c = addFieldStat a (addFieldStat b c) := by
  cases a; cases b; cases c
  simp [addFieldStat, Nat.add_assoc]

theorem addFieldStat_comm (a b : FieldStat) :
    addFieldStat a b = addFieldStat b a := by
  cases a; cases b
  simp [addFieldStat, Nat.add_comm]

theorem aggregateRecord_delta (stats : String → FieldStat) (r : ResultRecord)
    (name : String) :
    aggregateRecord stats r name = addFieldStat (stats name) (recDelta name r) := by
  unfold aggregateRecord recDelta
  by_cases h1 : name = r.field_name
  · rw [if_pos h1, if_pos h1]
    by_cases h2 : r.status = "matched"
    · rw [if_pos h2, if_pos h2]
      cases stats name
      simp [addFieldStat]
    · rw [if_neg h2, if_neg h2]
      by_cases h3 : r.status = "unmatched_db"
      · rw [if_pos h3, if_pos h3]
        by_cases h4 : r.match_type ≠ MatchType.category_null
        · rw [if_pos h4, if_pos h4]
          cases stats name
          simp [addFieldStat]
        · rw [if_neg h4, if_neg h4]
          cases stats name
          simp [addFieldStat]
      · rw [if_neg h3, if_neg h3]
        by_cases h5 : r.status = "unmatched_json"
        · rw [if_pos h5, if_pos h5]
          cases stats name
          simp [addFieldStat]
        · rw [if_neg h5, if_neg h5]
          cases stats name
          simp [addFieldStat]
  · rw [if_neg h1, if_neg h1]
    cases stats name
    simp [addFieldStat]

/-- The total delta of a result list for a field name. -/
def deltaSum (name : String) (rs : List ResultRecord) : FieldStat :=
  rs.foldl (fun a r => addFieldStat a (recDelta name r)) initFieldStat

theorem deltaSum_shift (name : String) (l : List ResultRecord) :
    ∀ x : FieldStat,
      l.foldl (fun a r => addFieldStat a (recDelta name r)) x
        = addFieldStat x (deltaSum name l) := by
  induction l with
  | nil => intro x; exact (addFieldStat_init x).symm
  | cons r t ih =>
    intro x
    simp only [List.foldl_cons]
    rw [ih, show deltaSum name (r :: t)
        = t.foldl (fun a r => addFieldStat a (recDelta name r))
            (addFieldStat initFieldStat (recDelta name r)) from rfl,
      ih, addFieldStat_init_left, addFieldStat_assoc]

theorem aggregate_results_delta (rs : List ResultRecord) :
    ∀ (stats : String → FieldStat) (name : String),
      aggregate_results stats rs name
        = addFieldStat (stats name) (deltaSum name rs) := by
  induction rs with
  | nil => intro stats name; exact (addFieldStat_init _).symm
  | cons r t ih =>
    intro stats name
    rw [show aggregate_results stats (r :: t)
        = aggregate_results (aggregateRecord stats r) t from rfl, ih,
      aggregateRecord_delta, show deltaSum name (r :: t)
        = t.foldl (fun a x => addFieldStat a (recDelta name x))
            (addFieldStat initFieldStat (recDelta name r)) from rfl,
      deltaSum_shift, addFieldStat_init_left, addFieldStat_assoc]

/-- Claim C5: for a fixed pair of per-file comparison results, the
per-field counters after folding the two files are identical in either
order (the per-file results themselves do not depend on batch order: the
comparator computes them per file). -/
theorem C5_aggregation_commutative (st : BatchState)
    (A B : Option (List ResultRecord)) :
    (processBatch st [A, B]).field_stats
      = (processBatch st [B, A]).field_stats := by
  cases A with
  | none =>
    cases B with
    | none => rfl
    | some rsB => rfl
  | some rsA =>
    cases B with
    | none => rfl
    | some rsB =>
      show aggregate_results (aggregate_results st.field_stats rsA) rsB
        = aggregate_results (aggregate_results st.field_stats rsB) rsA
      funext name
      rw [aggregate_results_delta, aggregate_results_delta,
        aggregate_results_delta, aggregate_results_delta,
        addFieldStat_assoc, addFieldStat_assoc,
        addFieldStat_comm (deltaSum name rsA) (deltaSum name rsB)]

end FMT
